import Mathlib

/-!
Shallow embedding of the grounded-output verification engine of
`src/tools/operations/validate.ts` (class `ValidateTool`) together with the
JavaScript runtime facilities it relies on (`JSON.parse`, property access,
`Promise.all`, number division).  Machine numbers are modelled over `ℚ`
with JavaScript's `NaN` / `Infinity` made explicit; JSON numbers keep their
source lexeme (the claims never compare numeric values).
-/

/-- JSON value as produced by `JSON.parse`.  A number keeps its source
lexeme: the engine never inspects numeric values, only strings. -/
inductive Json where
  | null : Json
  | bool : Bool → Json
  | num : String → Json
  | str : String → Json
  | arr : List Json → Json
  | obj : List (String × Json) → Json

/-- JSON insignificant whitespace (RFC 8259: space, tab, LF, CR). -/
def jsonWs (c : Char) : Bool :=
  c = ' ' || c = '\t' || c = '\n' || c = '\r'

/-- Skip JSON whitespace. -/
def skipWs (cs : List Char) : List Char :=
  cs.dropWhile jsonWs

/-- Hexadecimal digit value, for `\uXXXX` escapes. -/
def hexVal (c : Char) : Option Nat :=
  if '0' ≤ c ∧ c ≤ '9' then some (c.toNat - '0'.toNat)
  else if 'a' ≤ c ∧ c ≤ 'f' then some (c.toNat - 'a'.toNat + 10)
  else if 'A' ≤ c ∧ c ≤ 'F' then some (c.toNat - 'A'.toNat + 10)
  else none

/-- Body of a JSON string after the opening quote.  Control characters must
be escaped; the supported escapes are those of RFC 8259.  A `\u` escape is
decoded with `Char.ofNat` (lone UTF-16 surrogates, which Lean `Char` cannot
carry, fall back to `'\x00'`; no claim exercises them). -/
def pStringBody : List Char → List Char → Option (String × List Char)
  | acc, '"' :: rest => some (String.mk acc.reverse, rest)
  | acc, '\\' :: '"' :: rest => pStringBody ('"' :: acc) rest
  | acc, '\\' :: '\\' :: rest => pStringBody ('\\' :: acc) rest
  | acc, '\\' :: '/' :: rest => pStringBody ('/' :: acc) rest
  | acc, '\\' :: 'b' :: rest => pStringBody ('\x08' :: acc) rest
  | acc, '\\' :: 'f' :: rest => pStringBody ('\x0c' :: acc) rest
  | acc, '\\' :: 'n' :: rest => pStringBody ('\n' :: acc) rest
  | acc, '\\' :: 'r' :: rest => pStringBody ('\r' :: acc) rest
  | acc, '\\' :: 't' :: rest => pStringBody ('\t' :: acc) rest
  | acc, '\\' :: 'u' :: h1 :: h2 :: h3 :: h4 :: rest =>
      match hexVal h1, hexVal h2, hexVal h3, hexVal h4 with
      | some a, some b, some c, some d =>
          pStringBody (Char.ofNat (((a * 16 + b) * 16 + c) * 16 + d) :: acc) rest
      | _, _, _, _ => none
  | _, '\\' :: _ => none
  | acc, c :: rest => if c.toNat < 0x20 then none else pStringBody (c :: acc) rest
  | _, [] => none

/-- Longest leading run of decimal digits, with the rest. -/
def pDigits : List Char → List Char × List Char
  | c :: rest =>
      if c.isDigit then
        let (ds, r) := pDigits rest
        (c :: ds, r)
      else ([], c :: rest)
  | [] => ([], [])

/-- JSON number (RFC 8259 grammar), returning its lexeme. -/
def pNumber (cs : List Char) : Option (Json × List Char) :=
  let (sgn, cs1) : List Char × List Char :=
    match cs with
    | '-' :: r => (['-'], r)
    | _ => ([], cs)
  match cs1 with
  | c :: rest =>
    if c.isDigit then
      let (ipart, cs2) : List Char × List Char :=
        if c = '0' then (['0'], rest)
        else
          let (ds, r) := pDigits rest
          (c :: ds, r)
      -- a '.' or 'e' not followed by digits is left in the remainder, which
      -- every caller (trailing-input check, ',', ']', closing brace) then
      -- rejects, matching the SyntaxError JSON.parse raises there
      let (fpart, cs3) : List Char × List Char :=
        match cs2 with
        | '.' :: r =>
            match pDigits r with
            | ([], _) => ([], cs2)
            | (ds, r2) => ('.' :: ds, r2)
        | _ => ([], cs2)
      let (epart, cs4) : List Char × List Char :=
        match cs3 with
        | e :: r =>
          if e = 'e' ∨ e = 'E' then
            let (esgn, r1) : List Char × List Char :=
              match r with
              | s :: r2 => if s = '+' ∨ s = '-' then ([s], r2) else ([], r)
              | [] => ([], r)
            match pDigits r1 with
            | ([], _) => ([], cs3)
            | (ds, r2) => (e :: (esgn ++ ds), r2)
          else ([], cs3)
        | [] => ([], cs3)
      some (Json.num (String.mk (sgn ++ ipart ++ fpart ++ epart)), cs4)
    else none
  | [] => none

mutual

/-- One JSON value, fuelled recursive descent (mirrors `JSON.parse`). -/
def pValue : Nat → List Char → Option (Json × List Char)
  | 0, _ => none
  | fuel + 1, cs =>
    match skipWs cs with
    | '"' :: rest => (pStringBody [] rest).map (fun sr => (Json.str sr.1, sr.2))
    | '\x7b' :: rest =>
        match skipWs rest with
        | '\x7d' :: r2 => some (Json.obj [], r2)
        | r2 => (pMembers fuel r2).map (fun mr => (Json.obj mr.1, mr.2))
    | '[' :: rest =>
        match skipWs rest with
        | ']' :: r2 => some (Json.arr [], r2)
        | r2 => (pElements fuel r2).map (fun er => (Json.arr er.1, er.2))
    | 't' :: 'r' :: 'u' :: 'e' :: rest => some (Json.bool true, rest)
    | 'f' :: 'a' :: 'l' :: 's' :: 'e' :: rest => some (Json.bool false, rest)
    | 'n' :: 'u' :: 'l' :: 'l' :: rest => some (Json.null, rest)
    | rest => pNumber rest

/-- Comma-separated array elements up to `]`. -/
def pElements : Nat → List Char → Option (List Json × List Char)
  | 0, _ => none
  | fuel + 1, cs =>
    match pValue fuel cs with
    | none => none
    | some (v, cs1) =>
      match skipWs cs1 with
      | ',' :: cs2 => (pElements fuel cs2).map (fun er => (v :: er.1, er.2))
      | ']' :: cs2 => some ([v], cs2)
      | _ => none

/-- Comma-separated object members up to the closing brace. -/
def pMembers : Nat → List Char → Option (List (String × Json) × List Char)
  | 0, _ => none
  | fuel + 1, cs =>
    match skipWs cs with
    | '"' :: rest =>
      match pStringBody [] rest with
      | none => none
      | some (k, cs1) =>
        match skipWs cs1 with
        | ':' :: cs2 =>
          match pValue fuel cs2 with
          | none => none
          | some (v, cs3) =>
            match skipWs cs3 with
            | ',' :: cs4 => (pMembers fuel cs4).map (fun mr => ((k, v) :: mr.1, mr.2))
            | '\x7d' :: cs4 => some ([(k, v)], cs4)
            | _ => none
        | _ => none
    | _ => none

end

/-- `JSON.parse`: one JSON text, optionally surrounded by whitespace, and
nothing after it; `none` models the thrown `SyntaxError`.  The fuel
`2 * length + 8` dominates the recursion depth, since every two fuel
levels consume at least one input character. -/
def jsonParse (s : String) : Option Json :=
  let cs := s.toList
  match pValue (2 * cs.length + 8) cs with
  | some (v, rest) => if skipWs rest = [] then some v else none
  | none => none

/-- JavaScript property access `j.key` on a parsed JSON value: the field's
value on objects (last binding wins, as in `JSON.parse`), `none` for the
`undefined` read off every non-object.  (Reading a property of `null`
throws a TypeError in JavaScript; theorems that tally parsed lists
therefore assume no `null` element.) -/
def jsField (j : Json) (key : String) : Option Json :=
  match j with
  | .obj fields => ((fields.filter (fun kv => kv.1 == key)).getLast?).map (fun kv => kv.2)
  | _ => none

/-- JavaScript's `\s` character class (the members the engine can meet). -/
def jsSpace (c : Char) : Bool :=
  c = ' ' || c = '\t' || c = '\n' || c = '\r' || c = '\x0b' || c = '\x0c' ||
    c.toNat = 0xa0 || c.toNat = 0xfeff

/-- `markdownString.replace(/^```json\s*\x2f, '')`: if the string starts with
the literal opening fence, drop it and the whitespace run after it. -/
def stripOpeningFence (s : String) : String :=
  match s.toList with
  | '`' :: '`' :: '`' :: 'j' :: 's' :: 'o' :: 'n' :: rest =>
      String.mk (rest.dropWhile jsSpace)
  | _ => s

/-- `.replace(/\s*```$\x2f, '')`: if the string ends with the literal closing
fence, drop it and the maximal whitespace run before it (the regex matches
only when the three backticks are the final characters). -/
def stripClosingFence (s : String) : String :=
  match s.toList.reverse with
  | '`' :: '`' :: '`' :: rest => String.mk ((rest.dropWhile jsSpace).reverse)
  | _ => s

/-- The thrown `Error('Failed to parse JSON from markdown string')`. -/
inductive ParseFailure where
  | failedToParse : ParseFailure
deriving DecidableEq, Repr

/-- `extractVerdictsFromMarkdown` (validate.ts lines 27-42): strip an opening
and a closing fence when literally present, `JSON.parse` the rest, return
`parsed.verdicts` (which is `undefined` - here `none` - when the parsed
value is not an object or lacks the key; the parse itself performs no
schema validation).  A JSON syntax error, or the TypeError from reading
`.verdicts` off `null`, is caught and rethrown as the fixed Error. -/
def extractVerdictsFromMarkdown (markdownString : String) : Except ParseFailure (Option Json) :=
  match jsonParse (stripClosingFence (stripOpeningFence markdownString)) with
  | none => .error .failedToParse
  | some .null => .error .failedToParse
  | some j => .ok (jsField j "verdicts")

/-- How `const sentences = JSON.parse(output); sentences.map(...)` fails. -/
inductive DecomposeError where
  | jsonSyntaxError : DecomposeError
  | mapTypeError : DecomposeError
deriving DecidableEq, Repr

/-- The claim-decomposition step of `checkOutputClaims` (validate.ts line
112): `JSON.parse` the raw output; a JSON array gives its elements as the
claims, any other JSON value makes the subsequent `.map` throw a TypeError,
and a non-JSON string makes `JSON.parse` throw a SyntaxError.  (The
`sentence-splitter` import at the top of the file is never used: there is
no sentence-segmentation fallback anywhere in the source.) -/
def decomposeClaims (output : String) : Except DecomposeError (List Json) :=
  match jsonParse output with
  | none => .error .jsonSyntaxError
  | some (.arr elems) => .ok elems
  | some _ => .error .mapTypeError

mutual

/-- JavaScript `String(x)` as `sprintf('%s', x)` applies it, exact on
strings - the only case the engine feeds it (array elements of the parsed
claim list); other cases follow JS coercion, up to number formatting (the
lexeme stands in for the printed double) and `null`/`undefined` elements
inside arrays (JS renders those as empty). -/
def jsToString : Json → String
  | .null => "null"
  | .bool true => "true"
  | .bool false => "false"
  | .num lexeme => lexeme
  | .str s => s
  | .arr xs => String.intercalate "," (jsToStringElems xs)
  | .obj _ => "[object Object]"

/-- Elementwise JavaScript stringification. -/
def jsToStringElems : List Json → List String
  | [] => []
  | x :: xs => jsToString x :: jsToStringElems xs

end

/-- The prompt `sprintf("Document: %s\nClaim: %s", document, claim)`. -/
def claimPrompt (document claim : String) : String :=
  "Document: " ++ document ++ "\nClaim: " ++ claim

/-- `ValidateTool.checkClaim` (validate.ts lines 98-108): submit the
two-field prompt to the entailment model (`chatReply` is the remote model:
its reply, or a rejection carrying a message) and decide support by exact,
case-sensitive equality of the reply with the literal `"Yes"`. -/
def checkClaim (chatReply : String → Except String String) (document claim : String) :
    Except String Bool :=
  match chatReply (claimPrompt document claim) with
  | .error e => .error e
  | .ok content => .ok (content == "Yes")

/-- `Promise.all`: resolves with every value, in order, only when all
resolve; any rejection rejects the join (the surfaced rejection is
modelled as the leftmost). -/
def promiseAll {ε α : Type} : List (Except ε α) → Except ε (List α)
  | [] => .ok []
  | .error e :: _ => .error e
  | .ok a :: rest =>
    match promiseAll rest with
    | .error e => .error e
    | .ok tl => .ok (a :: tl)

/-- The `{yes: trueCount, no: checkResults.length - trueCount}` record. -/
structure EntailCounts where
  yes : Nat
  no : Nat
deriving DecidableEq, Repr

/-- The count aggregation of `checkOutputClaims` (validate.ts lines
116-120). -/
def entailCountsOf (checkResults : List Bool) : EntailCounts :=
  let trueCount := (checkResults.filter (fun result => result)).length
  ⟨trueCount, checkResults.length - trueCount⟩

/-- How the Entailment Judge stage can fail as a whole. -/
inductive StageError where
  | badClaims : DecomposeError → StageError
  | transport : String → StageError
deriving DecidableEq, Repr

/-- `ValidateTool.checkOutputClaims` (validate.ts lines 111-121): decompose
the output, fan out one `checkClaim` per claim, join with `Promise.all`,
and aggregate the boolean results into counts. -/
def checkOutputClaims (chatReply : String → Except String String)
    (groundingDoc output : String) : Except StageError EntailCounts :=
  match decomposeClaims output with
  | .error e => .error (.badClaims e)
  | .ok sentences =>
    match promiseAll (sentences.map (fun sentence =>
        checkClaim chatReply groundingDoc (jsToString sentence))) with
    | .error msg => .error (.transport msg)
    | .ok checkResults => .ok (entailCountsOf checkResults)

/-- The `{yes, no, idk}` verdict counter of `checkOutputCorrect`. -/
structure VerdictCounts where
  yes : Nat
  no : Nat
  idk : Nat
deriving DecidableEq, Repr

/-- JavaScript strict equality `x === 'lit'` for a property-read result:
true exactly when the value is that very string (an `undefined` read, a
non-string value, or any other string compares false). -/
def jsEqStr (x : Option Json) (lit : String) : Bool :=
  match x with
  | some (Json.str s) => s == lit
  | _ => false

/-- The tally loop of `ValidateTool.checkOutputCorrect` (validate.ts lines
180-194): for each parsed verdict, `===`-compare its `verdict` property
with `'yes'`, `'no'`, `'idk'` in order and bump the matching counter;
anything else falls through every branch. -/
def tallyVerdicts (verdicts : List Json) : VerdictCounts :=
  verdicts.foldl
    (fun verdictCounts verdict =>
      if jsEqStr (jsField verdict "verdict") "yes" then
        { verdictCounts with yes := verdictCounts.yes + 1 }
      else if jsEqStr (jsField verdict "verdict") "no" then
        { verdictCounts with no := verdictCounts.no + 1 }
      else if jsEqStr (jsField verdict "verdict") "idk" then
        { verdictCounts with idk := verdictCounts.idk + 1 }
      else verdictCounts)
    ⟨0, 0, 0⟩

/-- The `{missed}` counter of `checkOutputOmissions`. -/
structure FactCounts where
  missed : Nat
deriving DecidableEq, Repr

/-- The counting loop of `ValidateTool.checkOutputOmissions` (validate.ts
lines 261-269): bump `missed` exactly when the entry's `value` property is
`'high'` or `'medium'` (the source names the bound entry `verdict`). -/
def missedFactCounts (facts : List Json) : FactCounts :=
  facts.foldl
    (fun factCounts verdict =>
      if jsEqStr (jsField verdict "value") "high" ||
          jsEqStr (jsField verdict "value") "medium" then
        { factCounts with missed := factCounts.missed + 1 }
      else factCounts)
    ⟨0⟩

/-- A JavaScript number restricted to the values the aggregator can
produce: an exact rational standing in for the double, or NaN /
±Infinity. -/
inductive JsNum where
  | num : ℚ → JsNum
  | nan : JsNum
  | inf : JsNum
  | ninf : JsNum
deriving DecidableEq, Repr

/-- JavaScript `/`: division by zero gives NaN for a zero numerator and a
signed infinity otherwise; any other division is the (here: exact)
quotient. -/
def jsDiv (a b : ℚ) : JsNum :=
  if b = 0 then (if a = 0 then .nan else if 0 < a then .inf else .ninf)
  else .num (a / b)

/-- The aggregation tail of `ValidateTool.validate` (validate.ts lines
298-309): the judge-based score from the contradiction verdict counts and
the missed count, then the classifier-based score from the entailment
counts and the same missed count.  Result: `(f1, f1M)`. -/
def validateScores (resCorrectM : EntailCounts) (resCorrect : VerdictCounts)
    (resHalluc : FactCounts) : JsNum × JsNum :=
  let tp : ℚ := resCorrect.yes
  let fp : ℚ := (resCorrect.no : ℚ) + (resCorrect.idk : ℚ)
  let fn : ℚ := resHalluc.missed
  let f1 := jsDiv tp (tp + (fp + fn) / 2)
  let tpM : ℚ := resCorrectM.yes
  let fpM : ℚ := resCorrectM.no
  let f1M := jsDiv tpM (tpM + (fpM + fn) / 2)
  (f1, f1M)

/-- The spec's scoring formula, stated from its words: `F1 = TP / (TP +
(FP + FN) / 2)` under JavaScript division.  Used to check `validateScores`
against the specified TP/FP/FN assignments. -/
def f1SpecFormula (tp fp fn : Nat) : JsNum :=
  jsDiv (tp : ℚ) ((tp : ℚ) + ((fp : ℚ) + (fn : ℚ)) / 2)

/-- JavaScript number-to-string coercion on the aggregator's values (an
exact rational printed for the double). -/
def jsNumToString : JsNum → String
  | .nan => "NaN"
  | .inf => "Infinity"
  | .ninf => "-Infinity"
  | .num q => toString q

/-- The final audit-log line of `validate` (validate.ts line 309). -/
def f1LogLine (f1 f1M : JsNum) : String :=
  "END VALIDATION. F1 score: " ++ jsNumToString f1 ++
    " (with minicheck: " ++ jsNumToString f1M ++ ")"

/-- A retrieved row as `execute` consumes it: the identity key, the text
that reaches the grounding document, and the non-text fields the loop
deletes from its copy (embedding vector, duplicate raw-text field,
location metadata). -/
structure Passage where
  id : String
  full_text : String
  vector : List Int := []
  text : String := ""
  loc : String := ""
deriving DecidableEq, Repr

/-- The assembly loop of `ValidateTool.execute` (validate.ts lines
320-334): walk the rows in order, skip ids already seen, and append
`full_text` plus a newline for each first-seen row (the copied row's
`vector`, `text` and `loc` fields are deleted and never reach the
output). -/
def groundingDocLoop : List Passage → List String → String → String
  | [], _, acc => acc
  | p :: rest, seenIds, acc =>
    if p.id ∈ seenIds then groundingDocLoop rest seenIds acc
    else groundingDocLoop rest (p.id :: seenIds) (acc ++ p.full_text ++ "\n")

/-- The grounding document `execute` assembles. -/
def groundingDoc (results : List Passage) : String :=
  groundingDocLoop results [] ""

/-- Spec-side: first-seen-wins deduplication of `(id, text)` pairs in
arrival order. -/
def dedupFirstSeen (seen : List String) : List (String × String) → List (String × String)
  | [] => []
  | kv :: rest =>
    if kv.1 ∈ seen then dedupFirstSeen seen rest
    else kv :: dedupFirstSeen (kv.1 :: seen) rest

/-- Concatenation of the texts of a passage list, each followed by a
newline, in order. -/
def joinTexts : List (String × String) → String
  | [] => ""
  | kv :: rest => kv.2 ++ "\n" ++ joinTexts rest

/-- Spec-side Grounding Document, from the spec's words: each unique id's
text exactly once, in first-seen order, each followed by a newline. -/
def specGroundingDoc (passages : List (String × String)) : String :=
  joinTexts (dedupFirstSeen [] passages)

/-- What `execute` hands back to the tool framework. -/
structure ExecuteResult where
  contentText : String
  isError : Bool
deriving DecidableEq, Repr

/-- `ValidateTool.execute` (validate.ts lines 312-347) after a successful
retrieval: assemble the grounding document, start `this.validate(...)`
WITHOUT `await` - so the validation promise's outcome (success, parse
failure, transport failure) never reaches the surrounding try/catch - and
return the document with `isError: false`.  The validation outcome appears
as an argument only to state that the returned value does not depend on
it. -/
def execute (results : List Passage) (_validationOutcome : Except StageError Unit) :
    ExecuteResult :=
  { contentText := groundingDoc results, isError := false }

/-- Spec-side: the verdict carries this label (its `verdict` property is
exactly that string). -/
def hasVerdict (label : String) (verdict : Json) : Bool :=
  jsEqStr (jsField verdict "verdict") label

/-- Spec-side: the missed-fact entry carries this importance (its `value`
property is exactly that string). -/
def hasValue (value : String) (fact : Json) : Bool :=
  jsEqStr (jsField fact "value") value

/-!  Helper lemmas shared by the claim theorems. -/

theorem jsEqStr_unique (x : Option Json) (a b : String) (hne : a ≠ b)
    (h : jsEqStr x a = true) : jsEqStr x b = false := by
  unfold jsEqStr at h ⊢
  cases x with
  | none => simp at h
  | some j => cases j <;> simp_all

theorem hasVerdict_unique (v : Json) (a b : String) (hne : a ≠ b)
    (h : hasVerdict a v = true) : hasVerdict b v = false :=
  jsEqStr_unique _ a b hne h

theorem jsDiv_eq_nan (a b : ℚ) : jsDiv a b = JsNum.nan ↔ a = 0 ∧ b = 0 := by
  unfold jsDiv
  split_ifs <;> simp_all

theorem validateScores_eq (resCorrectM : EntailCounts) (resCorrect : VerdictCounts)
    (resHalluc : FactCounts) :
    validateScores resCorrectM resCorrect resHalluc =
      (f1SpecFormula resCorrect.yes (resCorrect.no + resCorrect.idk) resHalluc.missed,
       f1SpecFormula resCorrectM.yes resCorrectM.no resHalluc.missed) := by
  simp only [validateScores, f1SpecFormula, Prod.mk.injEq]
  refine ⟨?_, trivial⟩
  congr 1
  push_cast
  ring

theorem f1SpecFormula_eq_nan (tp fp fn : Nat) :
    f1SpecFormula tp fp fn = JsNum.nan ↔ tp = 0 ∧ fp = 0 ∧ fn = 0 := by
  unfold f1SpecFormula
  rw [jsDiv_eq_nan]
  constructor
  · rintro ⟨h1, h2⟩
    have htp : tp = 0 := by exact_mod_cast h1
    have hsum : (fp : ℚ) + (fn : ℚ) = 0 := by
      rw [h1] at h2
      linarith
    have hfp : (fp : ℚ) = 0 := by
      have h3 : (0 : ℚ) ≤ (fp : ℚ) := Nat.cast_nonneg fp
      have h4 : (0 : ℚ) ≤ (fn : ℚ) := Nat.cast_nonneg fn
      linarith
    have hfn : (fn : ℚ) = 0 := by linarith
    exact ⟨htp, by exact_mod_cast hfp, by exact_mod_cast hfn⟩
  · rintro ⟨h1, h2, h3⟩
    subst h1; subst h2; subst h3
    norm_num

theorem promiseAll_error_of_mem {ε α : Type} (ps : List (Except ε α)) (e : ε)
    (hp : Except.error e ∈ ps) : ∃ e2, promiseAll ps = Except.error e2 := by
  induction ps with
  | nil => simp at hp
  | cons q rest ih =>
    rcases List.mem_cons.mp hp with hq | hrest
    · exact ⟨e, by rw [← hq]; rfl⟩
    · obtain ⟨e2, he2⟩ := ih hrest
      cases q with
      | error e3 => exact ⟨e3, rfl⟩
      | ok a => exact ⟨e2, by simp [promiseAll, he2]⟩

theorem tallyVerdicts_foldl (vs : List Json) (c : VerdictCounts) :
    vs.foldl (fun verdictCounts verdict =>
      if jsEqStr (jsField verdict "verdict") "yes" then
        { verdictCounts with yes := verdictCounts.yes + 1 }
      else if jsEqStr (jsField verdict "verdict") "no" then
        { verdictCounts with no := verdictCounts.no + 1 }
      else if jsEqStr (jsField verdict "verdict") "idk" then
        { verdictCounts with idk := verdictCounts.idk + 1 }
      else verdictCounts) c =
    ⟨c.yes + (vs.filter (hasVerdict "yes")).length,
     c.no + (vs.filter (hasVerdict "no")).length,
     c.idk + (vs.filter (hasVerdict "idk")).length⟩ := by
  induction vs generalizing c with
  | nil => simp
  | cons v rest ih =>
    rw [List.foldl_cons]
    cases h1 : jsEqStr (jsField v "verdict") "yes" with
    | true =>
      have h2 := jsEqStr_unique (jsField v "verdict") "yes" "no" (by decide) h1
      have h3 := jsEqStr_unique (jsField v "verdict") "yes" "idk" (by decide) h1
      simp [h1, h2, h3, ih, List.filter_cons, hasVerdict, VerdictCounts.mk.injEq]
      all_goals omega
    | false =>
      cases h2 : jsEqStr (jsField v "verdict") "no" with
      | true =>
        have h3 := jsEqStr_unique (jsField v "verdict") "no" "idk" (by decide) h2
        simp [h1, h2, h3, ih, List.filter_cons, hasVerdict, VerdictCounts.mk.injEq]
        all_goals omega
      | false =>
        cases h3 : jsEqStr (jsField v "verdict") "idk" with
        | true =>
          simp [h1, h2, h3, ih, List.filter_cons, hasVerdict, VerdictCounts.mk.injEq]
          all_goals omega
        | false =>
          simp [h1, h2, h3, ih, List.filter_cons, hasVerdict, VerdictCounts.mk.injEq]

theorem tallyVerdicts_eq (vs : List Json) :
    tallyVerdicts vs =
      ⟨(vs.filter (hasVerdict "yes")).length,
       (vs.filter (hasVerdict "no")).length,
       (vs.filter (hasVerdict "idk")).length⟩ := by
  have h := tallyVerdicts_foldl vs ⟨0, 0, 0⟩
  simpa [tallyVerdicts] using h

theorem tally_filter_sum_le (vs : List Json) :
    (vs.filter (hasVerdict "yes")).length + (vs.filter (hasVerdict "no")).length +
      (vs.filter (hasVerdict "idk")).length ≤ vs.length := by
  induction vs with
  | nil => simp
  | cons v rest ih =>
    simp only [List.filter_cons, List.length_cons]
    cases h1 : hasVerdict "yes" v with
    | true =>
      have h2 := hasVerdict_unique v "yes" "no" (by decide) h1
      have h3 := hasVerdict_unique v "yes" "idk" (by decide) h1
      simp [h1, h2, h3]
      all_goals omega
    | false =>
      cases h2 : hasVerdict "no" v with
      | true =>
        have h3 := hasVerdict_unique v "no" "idk" (by decide) h2
        simp [h1, h2, h3]
        all_goals omega
      | false =>
        cases h3 : hasVerdict "idk" v with
        | true =>
          simp [h1, h2, h3]
          all_goals omega
        | false =>
          simp [h1, h2, h3]
          all_goals omega

theorem tally_filter_sum_lt (vs : List Json)
    (h : ∃ v ∈ vs, hasVerdict "yes" v = false ∧ hasVerdict "no" v = false ∧
      hasVerdict "idk" v = false) :
    (vs.filter (hasVerdict "yes")).length + (vs.filter (hasVerdict "no")).length +
      (vs.filter (hasVerdict "idk")).length < vs.length := by
  induction vs with
  | nil => simp at h
  | cons v rest ih =>
    obtain ⟨w, hw, hw1, hw2, hw3⟩ := h
    rcases List.mem_cons.mp hw with hv | hwrest
    · subst hv
      have hle := tally_filter_sum_le rest
      simp [List.filter_cons, hw1, hw2, hw3]
      all_goals omega
    · have hlt := ih ⟨w, hwrest, hw1, hw2, hw3⟩
      simp only [List.filter_cons, List.length_cons]
      cases h1 : hasVerdict "yes" v with
      | true =>
        have h2 := hasVerdict_unique v "yes" "no" (by decide) h1
        have h3 := hasVerdict_unique v "yes" "idk" (by decide) h1
        simp [h1, h2, h3]
        all_goals omega
      | false =>
        cases h2 : hasVerdict "no" v with
        | true =>
          have h3 := hasVerdict_unique v "no" "idk" (by decide) h2
          simp [h1, h2, h3]
          all_goals omega
        | false =>
          cases h3 : hasVerdict "idk" v with
          | true =>
            simp [h1, h2, h3]
            all_goals omega
          | false =>
            simp [h1, h2, h3]
            all_goals omega

theorem missedFactCounts_foldl (facts : List Json) (c : FactCounts) :
    facts.foldl (fun factCounts verdict =>
      if jsEqStr (jsField verdict "value") "high" ||
          jsEqStr (jsField verdict "value") "medium" then
        { factCounts with missed := factCounts.missed + 1 }
      else factCounts) c =
    ⟨c.missed + (facts.filter (fun f => hasValue "high" f || hasValue "medium" f)).length⟩ := by
  induction facts generalizing c with
  | nil => simp
  | cons f rest ih =>
    rw [List.foldl_cons, ih]
    cases h1 : jsEqStr (jsField f "value") "high" || jsEqStr (jsField f "value") "medium" with
    | true =>
      simp [h1, List.filter_cons, hasValue, FactCounts.mk.injEq]
      all_goals omega
    | false =>
      simp [h1, List.filter_cons, hasValue, FactCounts.mk.injEq]

theorem missedFactCounts_eq (facts : List Json) :
    missedFactCounts facts =
      ⟨(facts.filter (fun f => hasValue "high" f || hasValue "medium" f)).length⟩ := by
  have h := missedFactCounts_foldl facts ⟨0⟩
  simpa [missedFactCounts] using h

theorem groundingDocLoop_eq (ps : List Passage) (seen : List String) (acc : String) :
    groundingDocLoop ps seen acc =
      acc ++ joinTexts (dedupFirstSeen seen (ps.map (fun p => (p.id, p.full_text)))) := by
  induction ps generalizing seen acc with
  | nil => simp [groundingDocLoop, dedupFirstSeen, joinTexts, String.append_empty]
  | cons p rest ih =>
    by_cases h : p.id ∈ seen
    · simp [groundingDocLoop, dedupFirstSeen, h, ih]
    · simp [groundingDocLoop, dedupFirstSeen, h, ih, joinTexts, String.append_assoc]

theorem dedupFirstSeen_keys_not_mem (l : List (String × String)) :
    ∀ (seen : List String) (k : String),
      k ∈ (dedupFirstSeen seen l).map Prod.fst → k ∉ seen := by
  induction l with
  | nil =>
    intro seen k hk
    simp [dedupFirstSeen] at hk
  | cons kv rest ih =>
    intro seen k hk
    by_cases h : kv.1 ∈ seen
    · exact ih seen k (by simpa [dedupFirstSeen, h] using hk)
    · simp only [dedupFirstSeen, h, if_false, List.map_cons, List.mem_cons] at hk
      rcases hk with hk1 | hk2
      · subst hk1; exact h
      · have h2 := ih (kv.1 :: seen) k hk2
        intro hkseen
        exact h2 (List.mem_cons_of_mem _ hkseen)

theorem dedupFirstSeen_keys_nodup (l : List (String × String)) :
    ∀ seen : List String, ((dedupFirstSeen seen l).map Prod.fst).Nodup := by
  induction l with
  | nil =>
    intro seen
    simp [dedupFirstSeen]
  | cons kv rest ih =>
    intro seen
    by_cases h : kv.1 ∈ seen
    · simpa [dedupFirstSeen, h] using ih seen
    · simp only [dedupFirstSeen, h, if_false, List.map_cons, List.nodup_cons]
      refine ⟨fun hmem => ?_, ih (kv.1 :: seen)⟩
      exact dedupFirstSeen_keys_not_mem rest (kv.1 :: seen) kv.1 hmem (List.mem_cons_self _ _)

/-!  Claim theorems. -/

/-- C1: the Metric Aggregator computes, for judge results sharing one
missedCount, the two scores by `F1 = TP / (TP + (FP + FN) / 2)` with the
classifier score using the entailment yes/no counts and the judge score
using the contradiction yes as TP and no + idk as FP, both with
missedCount as FN; entailment results `[true, false]` with missedCount 1
give classifier F1 = 0.5, and contradiction counts `{yes 3, no 1, idk 1}`
with missedCount 2 give judge F1 = 0.6. -/
theorem metric_aggregator_f1_formulas :
    (∀ (resCorrectM : EntailCounts) (resCorrect : VerdictCounts) (resHalluc : FactCounts),
      validateScores resCorrectM resCorrect resHalluc =
        (f1SpecFormula resCorrect.yes (resCorrect.no + resCorrect.idk) resHalluc.missed,
         f1SpecFormula resCorrectM.yes resCorrectM.no resHalluc.missed))
    ∧ (validateScores (entailCountsOf [true, false]) ⟨0, 0, 0⟩ ⟨1⟩).2 = JsNum.num (1 / 2)
    ∧ (validateScores ⟨0, 0⟩ ⟨3, 1, 1⟩ ⟨2⟩).1 = JsNum.num (3 / 5) := by
  refine ⟨validateScores_eq, ?_, ?_⟩
  · norm_num [validateScores, entailCountsOf, jsDiv]
  · norm_num [validateScores, jsDiv]

/-- C2 (counterexample): on the non-JSON output
`"Hello world. It is sunny."`, the Claim Decomposer does not fall back to
sentence segmentation - `JSON.parse` throws a SyntaxError and no claim
list at all is produced. -/
theorem claim_decomposer_counterexample :
    decomposeClaims "Hello world. It is sunny." =
      Except.error DecomposeError.jsonSyntaxError := rfl

/-- C2 (amended): a string that parses as a JSON array yields exactly the
array's elements, verbatim, as the claim list; any other string makes the
stage throw (a JSON syntax error for non-JSON input) - there is no
sentence-segmentation fallback. -/
theorem claim_decomposer_json_array_only (s : String) :
    (∀ xs, decomposeClaims s = Except.ok xs ↔ jsonParse s = some (Json.arr xs))
    ∧ (jsonParse s = none →
        decomposeClaims s = Except.error DecomposeError.jsonSyntaxError)
    ∧ decomposeClaims "[\"A\", \"B\"]" = Except.ok [Json.str "A", Json.str "B"] := by
  refine ⟨?_, ?_, by rfl⟩
  · intro xs
    unfold decomposeClaims
    cases h : jsonParse s with
    | none => simp
    | some j => cases j <;> simp
  · intro h
    unfold decomposeClaims
    rw [h]

/-- Witness for C2's amended theorem at a concrete non-JSON input. -/
theorem claim_decomposer_json_array_only_witness :
    jsonParse "It is sunny today" = none ∧
    decomposeClaims "It is sunny today" = Except.error DecomposeError.jsonSyntaxError :=
  ⟨rfl, (claim_decomposer_json_array_only "It is sunny today").2.1 rfl⟩

/-- C3: `checkClaim` answers support exactly when the model's reply is the
literal, case-sensitive string `"Yes"`; any other resolved reply -
different casing or surrounding text included - yields `false`. -/
theorem checkClaim_exact_yes_match (chatReply : String → Except String String)
    (document claim reply : String)
    (h : chatReply (claimPrompt document claim) = Except.ok reply) :
    checkClaim chatReply document claim = Except.ok (reply == "Yes")
    ∧ (checkClaim chatReply document claim = Except.ok true ↔ reply = "Yes") := by
  unfold checkClaim
  rw [h]
  exact ⟨rfl, by simp⟩

/-- Witness for C3 at concrete replies: lowercase `"yes"` and padded
`"Yes."` are non-support, the exact `"Yes"` is support. -/
theorem checkClaim_exact_yes_match_witness :
    checkClaim (fun _ => Except.ok "yes") "d1" "c1" = Except.ok false
    ∧ checkClaim (fun _ => Except.ok "Yes.") "d2" "c2" = Except.ok false
    ∧ checkClaim (fun _ => Except.ok "Yes") "d3" "c3" = Except.ok true := by
  refine ⟨?_, ?_, ?_⟩
  · exact (checkClaim_exact_yes_match (fun _ => Except.ok "yes") "d1" "c1" "yes" rfl).1
  · exact (checkClaim_exact_yes_match (fun _ => Except.ok "Yes.") "d2" "c2" "Yes." rfl).1
  · exact (checkClaim_exact_yes_match (fun _ => Except.ok "Yes") "d3" "c3" "Yes" rfl).1

/-- C4 (counterexample): a response whose closing fence is missing does NOT
raise the parse failure - the trailing-fence strip is a no-op, the
remaining text is valid JSON, and the verdicts parse successfully. -/
theorem response_parser_missing_fence_counterexample :
    extractVerdictsFromMarkdown "```json\n\x7b\"verdicts\":[\x7b\"verdict\":\"yes\"\x7d]\x7d" =
      Except.ok (some (Json.arr [Json.obj [("verdict", Json.str "yes")]])) := rfl

/-- C4 (amended): a ```` ```json ```` fence wrapping
`\x7b"verdicts":[\x7b"verdict":"yes"\x7d]\x7d` round-trips to exactly the
embedded object, and truncated JSON raises the distinct parse-failure
error; but a response missing only the closing fence does not raise - it
parses successfully to the same verdicts. -/
theorem response_parser_fence_roundtrip :
    jsonParse "\x7b\"verdicts\":[\x7b\"verdict\":\"yes\"\x7d]\x7d" =
      some (Json.obj [("verdicts", Json.arr [Json.obj [("verdict", Json.str "yes")]])])
    ∧ extractVerdictsFromMarkdown
        "```json\n\x7b\"verdicts\":[\x7b\"verdict\":\"yes\"\x7d]\x7d\n```" =
      Except.ok (some (Json.arr [Json.obj [("verdict", Json.str "yes")]]))
    ∧ extractVerdictsFromMarkdown "```json\n\x7b\"verdicts\":[\x7b\"verdict\":" =
      Except.error ParseFailure.failedToParse
    ∧ extractVerdictsFromMarkdown "```json\n\x7b\"verdicts\":[\x7b\"verdict\":\"yes\"\x7d]\x7d" =
      Except.ok (some (Json.arr [Json.obj [("verdict", Json.str "yes")]])) :=
  ⟨rfl, rfl, rfl, rfl⟩

/-- C5: the Grounding Assembler's output is the texts of the id-unique
passages, first-seen-wins in arrival order, each followed by a newline;
the deduplicated id list has no duplicates, and the output depends only on
the `(id, full_text)` projection - every non-text field (vector, duplicate
raw-text, location) is excluded. -/
theorem grounding_assembler_first_seen_dedup (ps : List Passage) :
    groundingDoc ps = specGroundingDoc (ps.map (fun p => (p.id, p.full_text)))
    ∧ ((dedupFirstSeen [] (ps.map (fun p => (p.id, p.full_text)))).map Prod.fst).Nodup
    ∧ ∀ qs : List Passage,
        ps.map (fun p => (p.id, p.full_text)) = qs.map (fun p => (p.id, p.full_text)) →
        groundingDoc ps = groundingDoc qs := by
  have hdoc : ∀ rs : List Passage,
      groundingDoc rs = specGroundingDoc (rs.map (fun p => (p.id, p.full_text))) := by
    intro rs
    rw [groundingDoc, groundingDocLoop_eq, specGroundingDoc, String.empty_append]
  refine ⟨hdoc ps, dedupFirstSeen_keys_nodup _ [], ?_⟩
  intro qs hqs
  rw [hdoc ps, hdoc qs, hqs]

/-- Witness for C5 at a concrete passage list with a duplicate id and junk
non-text fields: the duplicate's text appears once, and changing only the
non-text fields leaves the document unchanged. -/
theorem grounding_assembler_first_seen_dedup_witness :
    groundingDoc [⟨"1", "A", [7], "junk", "p1"⟩, ⟨"1", "A2", [], "", ""⟩,
        ⟨"2", "B", [], "", ""⟩] =
      groundingDoc [⟨"1", "A", [], "other", ""⟩, ⟨"1", "A2", [9], "x", "p9"⟩,
        ⟨"2", "B", [8], "y", "p8"⟩]
    ∧ groundingDoc [⟨"1", "A", [7], "junk", "p1"⟩, ⟨"1", "A2", [], "", ""⟩,
        ⟨"2", "B", [], "", ""⟩] = "A\nB\n" :=
  ⟨(grounding_assembler_first_seen_dedup _).2.2 _ rfl, rfl⟩

/-- C6: the Omission Detector's missedCount is exactly the number of
parsed entries whose `value` is `"high"` or `"medium"`; an entry tagged
`"low"` (or anything else) never increments it. -/
theorem omission_count_high_medium_only (facts : List Json)
    (hnn : Json.null ∉ facts) :
    missedFactCounts facts =
      ⟨(facts.filter (fun f => hasValue "high" f || hasValue "medium" f)).length⟩
    ∧ ∀ f : Json, hasValue "high" f = false → hasValue "medium" f = false →
        missedFactCounts (facts ++ [f]) = missedFactCounts facts := by
  refine ⟨missedFactCounts_eq facts, ?_⟩
  intro f h1 h2
  rw [missedFactCounts_eq, missedFactCounts_eq]
  simp [List.filter_append, List.filter_cons, h1, h2]

/-- Witness for C6 at a mixed-importance fact list: high and medium count,
low and an unknown tag do not. -/
theorem omission_count_high_medium_only_witness :
    Json.null ∉ [Json.obj [("value", Json.str "high")], Json.obj [("value", Json.str "low")],
      Json.obj [("value", Json.str "medium")], Json.obj [("value", Json.str "other")]]
    ∧ missedFactCounts [Json.obj [("value", Json.str "high")], Json.obj [("value", Json.str "low")],
      Json.obj [("value", Json.str "medium")], Json.obj [("value", Json.str "other")]] = ⟨2⟩ :=
  ⟨by simp,
   ((omission_count_high_medium_only
      [Json.obj [("value", Json.str "high")], Json.obj [("value", Json.str "low")],
       Json.obj [("value", Json.str "medium")], Json.obj [("value", Json.str "other")]]
      (by simp)).1).trans rfl⟩

/-- C7: either score is NaN exactly when its TP, FP and FN are all zero;
it is never coerced to a number there, and the NaN is rendered verbatim in
the final audit-log line. -/
theorem f1_zero_denominator_undefined :
    (∀ (resCorrectM : EntailCounts) (resCorrect : VerdictCounts) (resHalluc : FactCounts),
      ((validateScores resCorrectM resCorrect resHalluc).2 = JsNum.nan ↔
        resCorrectM.yes = 0 ∧ resCorrectM.no = 0 ∧ resHalluc.missed = 0)
      ∧ ((validateScores resCorrectM resCorrect resHalluc).1 = JsNum.nan ↔
        resCorrect.yes = 0 ∧ resCorrect.no = 0 ∧ resCorrect.idk = 0 ∧
          resHalluc.missed = 0))
    ∧ validateScores ⟨0, 0⟩ ⟨0, 0, 0⟩ ⟨0⟩ = (JsNum.nan, JsNum.nan)
    ∧ f1LogLine (validateScores ⟨0, 0⟩ ⟨0, 0, 0⟩ ⟨0⟩).1
        (validateScores ⟨0, 0⟩ ⟨0, 0, 0⟩ ⟨0⟩).2 =
      "END VALIDATION. F1 score: NaN (with minicheck: NaN)" := by
  have hzero : validateScores ⟨0, 0⟩ ⟨0, 0, 0⟩ ⟨0⟩ = (JsNum.nan, JsNum.nan) := by
    norm_num [validateScores, jsDiv]
  refine ⟨?_, hzero, ?_⟩
  · intro eC vC fC
    rw [validateScores_eq]
    constructor
    · rw [f1SpecFormula_eq_nan]
    · rw [f1SpecFormula_eq_nan]
      omega
  · rw [hzero]
    rfl

/-- C8: one rejected per-claim call makes the whole Entailment Judge stage
fail with a transport error - no partial boolean array and no partial
counts are produced. -/
theorem entailment_stage_all_or_nothing
    (chatReply : String → Except String String) (gdoc output : String)
    (sentences : List Json) (s : Json) (msg : String)
    (hdec : decomposeClaims output = Except.ok sentences)
    (hmem : s ∈ sentences)
    (hfail : checkClaim chatReply gdoc (jsToString s) = Except.error msg) :
    ∃ e, checkOutputClaims chatReply gdoc output =
      Except.error (StageError.transport e) := by
  simp only [checkOutputClaims, hdec]
  have hmem2 : Except.error msg ∈ sentences.map (fun sentence =>
      checkClaim chatReply gdoc (jsToString sentence)) := by
    rw [← hfail]
    exact List.mem_map_of_mem _ hmem
  obtain ⟨e2, he2⟩ := promiseAll_error_of_mem _ msg hmem2
  rw [he2]
  exact ⟨e2, rfl⟩

/-- Witness for C8: a model that rejects every call fails the whole stage
on a two-claim list. -/
theorem entailment_stage_all_or_nothing_witness :
    ∃ e, checkOutputClaims (fun _ => Except.error "boom") "doc" "[\"A\",\"B\"]" =
      Except.error (StageError.transport e) :=
  entailment_stage_all_or_nothing (fun _ => Except.error "boom") "doc" "[\"A\",\"B\"]"
    [Json.str "A", Json.str "B"] (Json.str "A") "boom" rfl
    (List.mem_cons_self _ _) rfl

/-- C9: the Contradiction Judge's tally counts exactly the verdicts whose
label is the string `yes`, `no` or `idk`; any other verdict is silently
skipped, so the three counters can sum to strictly less than the number of
verdicts. -/
theorem contradiction_tally_known_labels_only (verdicts : List Json)
    (hnn : Json.null ∉ verdicts) :
    tallyVerdicts verdicts =
      ⟨(verdicts.filter (hasVerdict "yes")).length,
       (verdicts.filter (hasVerdict "no")).length,
       (verdicts.filter (hasVerdict "idk")).length⟩
    ∧ (tallyVerdicts verdicts).yes + (tallyVerdicts verdicts).no +
        (tallyVerdicts verdicts).idk ≤ verdicts.length
    ∧ ((∃ v ∈ verdicts, hasVerdict "yes" v = false ∧ hasVerdict "no" v = false ∧
          hasVerdict "idk" v = false) →
        (tallyVerdicts verdicts).yes + (tallyVerdicts verdicts).no +
          (tallyVerdicts verdicts).idk < verdicts.length) := by
  have heq := tallyVerdicts_eq verdicts
  refine ⟨heq, ?_, ?_⟩
  · simp only [heq]
    exact tally_filter_sum_le verdicts
  · intro hex
    simp only [heq]
    exact tally_filter_sum_lt verdicts hex

/-- Witness for C9 at a list holding one `yes` verdict and one verdict
with the unknown label `maybe`: the counters sum to 1 < 2. -/
theorem contradiction_tally_known_labels_only_witness :
    Json.null ∉ [Json.obj [("verdict", Json.str "yes")], Json.obj [("verdict", Json.str "maybe")]]
    ∧ (tallyVerdicts [Json.obj [("verdict", Json.str "yes")],
        Json.obj [("verdict", Json.str "maybe")]]).yes +
      (tallyVerdicts [Json.obj [("verdict", Json.str "yes")],
        Json.obj [("verdict", Json.str "maybe")]]).no +
      (tallyVerdicts [Json.obj [("verdict", Json.str "yes")],
        Json.obj [("verdict", Json.str "maybe")]]).idk < 2 :=
  ⟨by simp,
   (contradiction_tally_known_labels_only
      [Json.obj [("verdict", Json.str "yes")], Json.obj [("verdict", Json.str "maybe")]]
      (by simp)).2.2
    ⟨Json.obj [("verdict", Json.str "maybe")], by simp, rfl, rfl, rfl⟩⟩

/-- C10: `execute` returns the assembled grounding document with
`isError = false`, identically for every outcome of the un-awaited
validation pipeline - validation failures never surface through
`execute`'s error handling. -/
theorem execute_independent_of_validation (results : List Passage)
    (o1 o2 : Except StageError Unit) :
    execute results o1 = execute results o2
    ∧ (execute results o1).isError = false
    ∧ (execute results o1).contentText = groundingDoc results :=
  ⟨rfl, rfl, rfl⟩
